import Mathlib

/-!
# Verification of the QQQ option-feature pipeline

Shallow embedding, in Lean 4, of the core of the `qqq_project` repository
(`src/qqq_pipeline/`): the row validator (`data_completeness.py`), the
time-feature builder (`time_features.py` / `features.py`), the volume /
open-interest bucket aggregator (`features.py`, class `volume_OI_features`)
and the information-coefficient analysis engine (`ic_analysis.py`).

Modelling conventions:
* pandas float columns that can hold `NaN` are modelled as `Option ℚ`
  (`none` = `NaN`/missing); exact rational arithmetic replaces binary
  floats, which is faithful for every property proved here (none of the
  claims hinges on rounding).
* pandas comparisons involving `NaN` evaluate to `False`; the helper
  `optGt` below reproduces this.
* `groupby(...).agg("sum")` skips `NaN` contributions and returns `0` for
  an all-`NaN` group; a `NaN` contribution is therefore modelled as `0`
  via `Option.getD 0`.
* `pd.cut` maps `NaN` input to a `NaN` bucket, and `groupby` (with its
  default `dropna=True`) drops rows whose group key is `NaN`.
* `pivot_table` is modelled with its pandas 2.x semantics (default
  `observed=False`, default `dropna=True`, `fill_value=0`): the column
  level coming from the *categorical* `dte_bucket` key expands to all
  configured categories, while the column level coming from the plain
  string (object dtype) `*_delta_bucket` key contains only the values
  actually observed in the aggregated input; combinations that are empty
  on a given date are filled with `0`.
* dataframe rows are lists; trade dates are integers (`ℤ`).

The IC engine's irrational quantities (a Spearman correlation and the
derived t-statistic are of the form `s·√q` with `s ∈ {-1,0,1}` and
`q ∈ ℚ≥0`) are represented exactly by the computable pair `SqrtQ`; the
noncomputable interpretation `SqrtQ.toReal` into `ℝ` is used only in
theorem statements.
-/

/-! ## Basic `NaN`-aware helpers -/

/-- pandas `>` on two possibly-missing values: any comparison with `NaN`
is `False`. -/
def optGt (a b : Option ℚ) : Bool :=
  match a, b with
  | some x, some y => decide (x > y)
  | _, _ => false

/-- Nonnegativity `0 ≤ v` for a possibly-missing value, vacuously true when missing.
Used as the hypothesis "all observed quantities are nonnegative". -/
def optNonneg (o : Option ℚ) : Prop :=
  match o with
  | none => True
  | some x => 0 ≤ x

instance (o : Option ℚ) : Decidable (optNonneg o) := by
  unfold optNonneg
  cases o <;> infer_instance

/-! ## Data model

One raw option-quote observation (one contract on one trade date).
Fields that the validator merely *reports* on and that no claim touches
(`callValue`, `putValue`, `gamma`, `vega`, `callTheta`, `callRho`,
`spotPrice`) are carried for completeness where cheap; greeks used only
in printed diagnostics are omitted since they do not influence any
returned value. -/

structure OptionRow where
  tradeDate : ℤ
  dte : Option ℚ
  spotPrice : Option ℚ
  callBidPrice : Option ℚ
  callAskPrice : Option ℚ
  putBidPrice : Option ℚ
  putAskPrice : Option ℚ
  callVolume : Option ℚ
  putVolume : Option ℚ
  callOpenInterest : Option ℚ
  putOpenInterest : Option ℚ
  callDelta : Option ℚ
  putDelta : Option ℚ
  deriving DecidableEq, Repr

/-! ## Row validator (`data_completeness.py`, `check_data_completeness`)

The function prints a series of diagnostic rates (missing liquidity,
non-finite greeks, negative prices, out-of-bound deltas, negative dte,
crossed quotes) and then returns
`QQQ[~((callBid > callAsk) | (putBid > putAsk))]`.
Only the returned dataframe is modelled: the printed diagnostics do not
affect it. -/

/-- The hard filter predicate: `bid > ask` on either leg, with pandas
`NaN`-comparison semantics (`NaN > x` is `False`). -/
def crossedQuote (r : OptionRow) : Bool :=
  optGt r.callBidPrice r.callAskPrice || optGt r.putBidPrice r.putAskPrice

/-- Embeds `check_data_completeness`: keep exactly the rows that are not
crossed on either leg.  Rows are returned unaltered. -/
def check_data_completeness (rows : List OptionRow) : List OptionRow :=
  rows.filter (fun r => !(crossedQuote r))

/-- Spec-side wording of the removal condition: the row has a *defined*
bid strictly above a *defined* ask on the call leg or on the put leg. -/
def specCrossed (r : OptionRow) : Prop :=
  (∃ b a, r.callBidPrice = some b ∧ r.callAskPrice = some a ∧ b > a) ∨
  (∃ b a, r.putBidPrice = some b ∧ r.putAskPrice = some a ∧ b > a)

/-! ## Volume/OI bucket aggregator (`features.py`, `volume_OI_features`)

Default configuration of the class:
`dte_buckets = [-inf, 7, 30, 90, 365, inf]`,
`dte_buckets_labels = ["7d", "1mo", "3mo", "12mo", "far"]`,
`machine_error = 1e-8`. -/

def dte_buckets_labels : List String := ["7d", "1mo", "3mo", "12mo", "far"]

/-- Constant `machine_error = 1e-8` (modelled as the exact rational `10⁻⁸`; the
positivity and ratio properties proved below do not depend on the float
rounding of the literal). -/
def machine_error : ℚ := mkRat 1 100000000

/-- Embeds `pd.cut(dte, bins=[-inf,7,30,90,365,inf], labels=[...])`:
right-closed intervals `(-inf,7], (7,30], (30,90], (90,365], (365,inf)`;
a missing `dte` yields a missing bucket. -/
def dte_bucket (d : Option ℚ) : Option String :=
  match d with
  | none => none
  | some x =>
      some (if x ≤ 7 then "7d"
            else if x ≤ 30 then "1mo"
            else if x ≤ 90 then "3mo"
            else if x ≤ 365 then "12mo"
            else "far")

/-- The moneyness assignment sequence of `create_delta_dte_buckets`:
initialise to `"itm"`, overwrite with `"atm"` where
`delta.between(0.4, 0.6, inclusive="both")`, overwrite with `"otm"`
where `delta < 0.4`.  The `between`/`<` masks are `False` on `NaN`, so a
missing delta keeps the initial `"itm"`.  The two masks are disjoint, so
the sequence collapses to the nested conditional below. -/
def deltaBucketOfVal (o : Option ℚ) : String :=
  match o with
  | none => "itm"
  | some x => if x < mkRat 2 5 then "otm" else if x ≤ mkRat 3 5 then "atm" else "itm"

/-- Call-leg moneyness bucket: the *signed* `callDelta` is used. -/
def call_delta_bucket (r : OptionRow) : String :=
  deltaBucketOfVal r.callDelta

/-- Put-leg moneyness bucket: `putDelta.abs()` is used (`abs` of `NaN`
is `NaN`). -/
def put_delta_bucket (r : OptionRow) : String :=
  deltaBucketOfVal (r.putDelta.map (fun x => |x|))

/-! Embedding of `calc_volume_oi`: per-row mid prices and notionals.  Arithmetic on
`NaN` propagates `NaN`, hence the `Option` plumbing. -/

def mid_call (r : OptionRow) : Option ℚ :=
  match r.callBidPrice, r.callAskPrice with
  | some b, some a => some ((b + a) / 2)
  | _, _ => none

def mid_put (r : OptionRow) : Option ℚ :=
  match r.putBidPrice, r.putAskPrice with
  | some b, some a => some ((b + a) / 2)
  | _, _ => none

def call_notvol (r : OptionRow) : Option ℚ :=
  match r.callVolume, mid_call r with
  | some v, some m => some (v * m)
  | _, _ => none

def put_notvol (r : OptionRow) : Option ℚ :=
  match r.putVolume, mid_put r with
  | some v, some m => some (v * m)
  | _, _ => none

def call_notoi (r : OptionRow) : Option ℚ :=
  match r.callOpenInterest, mid_call r with
  | some v, some m => some (v * m)
  | _, _ => none

def put_notoi (r : OptionRow) : Option ℚ :=
  match r.putOpenInterest, mid_put r with
  | some v, some m => some (v * m)
  | _, _ => none

/-! ### Grouped aggregation and the wide pivot

`call_agg = QQQ.groupby(["tradeDate","dte_bucket","call_delta_bucket"],
observed=True).agg(sum)` drops rows whose `dte_bucket` is `NaN`
(`dropna=True` default) and sums with `skipna` (a `NaN` term counts as
`0`); the subsequent `pivot_table(..., aggfunc="sum", fill_value=0)`
re-aggregates the unique groups, so the wide cell value at
`(date, tenor, moneyness)` is the plain filtered sum below (an empty
cell is `fill_value = 0`, which coincides with the empty sum). -/

/-- Wide-table cell value on the call leg for one metric
(`call_notvol` or `call_notoi`). -/
def callCell (rows : List OptionRow) (d : ℤ) (t m : String)
    (metric : OptionRow → Option ℚ) : ℚ :=
  ((rows.filter (fun r =>
      r.tradeDate = d ∧ dte_bucket r.dte = some t ∧ call_delta_bucket r = m)).map
    (fun r => (metric r).getD 0)).sum

/-- Wide-table cell value on the put leg for one metric
(`put_notvol` or `put_notoi`). -/
def putCell (rows : List OptionRow) (d : ℤ) (t m : String)
    (metric : OptionRow → Option ℚ) : ℚ :=
  ((rows.filter (fun r =>
      r.tradeDate = d ∧ dte_bucket r.dte = some t ∧ put_delta_bucket r = m)).map
    (fun r => (metric r).getD 0)).sum

/-- Trade dates present in the grouped aggregation (both legs produce
the same set: each groupby drops exactly the rows whose `dte_bucket`
key is `NaN`, and the moneyness keys are never `NaN`). -/
def bucketDates (rows : List OptionRow) : List ℤ :=
  ((rows.filter (fun r => (dte_bucket r.dte).isSome)).map (fun r => r.tradeDate)).dedup

/-- Moneyness values observed in the call-leg aggregation: the
`call_delta_bucket` column of `call_agg` is a plain string column, so
the pivot only creates columns for these observed values (pandas 2.x
`pivot_table`; the categorical `dte_bucket` level, by contrast, expands
to all configured labels). -/
def observedCallMon (rows : List OptionRow) : List String :=
  ((rows.filter (fun r => (dte_bucket r.dte).isSome)).map call_delta_bucket).dedup

/-- Moneyness values observed in the put-leg aggregation. -/
def observedPutMon (rows : List OptionRow) : List String :=
  ((rows.filter (fun r => (dte_bucket r.dte).isSome)).map put_delta_bucket).dedup

/-- Column name `f"{metric}_{dte}_{delta}"`. -/
def colName (metric t m : String) : String :=
  metric ++ "_" ++ t ++ "_" ++ m

/-- Columns (name, value) of one `daily_call_agg` wide row *before* the
ratio loop: one column per metric × configured tenor label × observed
call moneyness value, zero-filled where empty.  (pandas sorts the pivot
columns; every claim below is about the column *set*, so a fixed
generation order is used.) -/
def callWideBase (rows : List OptionRow) (d : ℤ) : List (String × ℚ) :=
  [("call_notvol", call_notvol), ("call_notoi", call_notoi)].flatMap
    (fun mp => dte_buckets_labels.flatMap
      (fun t => (observedCallMon rows).map
        (fun m => (colName mp.1 t m, callCell rows d t m mp.2))))

/-- Columns of one `daily_put_agg` wide row. -/
def putWideRow (rows : List OptionRow) (d : ℤ) : List (String × ℚ) :=
  [("put_notvol", put_notvol), ("put_notoi", put_notoi)].flatMap
    (fun mp => dte_buckets_labels.flatMap
      (fun t => (observedPutMon rows).map
        (fun m => (colName mp.1 t m, putCell rows d t m mp.2))))

/-! ### The put/call ratio loop

For each configured tenor label and each moneyness value in
`["itm", "atm", "otm"]` the loop reads `put_notvol_{t}_{m}` /
`put_notoi_{t}_{m}` from `daily_put_agg` and `call_notvol_{t}_{m}` /
`call_notoi_{t}_{m}` from `daily_call_agg` and stores
`put / (call + machine_error)`.  The element-wise division aligns the
two tables row by row; they share the index `bucketDates` in the same
order, so the division is per trade date.  Reading a column that the
pivot did not create raises `KeyError`: the loop succeeds iff every
moneyness value in `["itm","atm","otm"]` was observed on both legs. -/

/-- Ratio column `pc_ratio_notional_vol` for tenor `t`, moneyness `m`, at one trade date. -/
def pcRatioVol (rows : List OptionRow) (d : ℤ) (t m : String) : ℚ :=
  putCell rows d t m put_notvol / (callCell rows d t m call_notvol + machine_error)

/-- Ratio column `pc_ratio_notional_oi` for tenor `t`, moneyness `m`, at one trade date. -/
def pcRatioOi (rows : List OptionRow) (d : ℤ) (t m : String) : ℚ :=
  putCell rows d t m put_notoi / (callCell rows d t m call_notoi + machine_error)

/-- Whether the ratio loop can read all the columns it enumerates. -/
def ratioLoopOk (rows : List OptionRow) : Bool :=
  ["itm", "atm", "otm"].all
    (fun m => m ∈ observedPutMon rows && m ∈ observedCallMon rows)

/-- One `daily_call_agg` wide row after the ratio loop: the base pivot
columns followed by the ratio columns in loop order. -/
def callWideRow (rows : List OptionRow) (d : ℤ) : List (String × ℚ) :=
  callWideBase rows d ++
    dte_buckets_labels.flatMap (fun t => ["itm", "atm", "otm"].flatMap
      (fun m => [(colName "pc_ratio_notional_vol" t m, pcRatioVol rows d t m),
                 (colName "pc_ratio_notional_oi" t m, pcRatioOi rows d t m)]))

/-- A date-keyed panel: one row of named columns per trade date. -/
abbrev Panel := List (ℤ × List (String × ℚ))

def putWideTable (rows : List OptionRow) : Panel :=
  (bucketDates rows).map (fun d => (d, putWideRow rows d))

def callWideTable (rows : List OptionRow) : Panel :=
  (bucketDates rows).map (fun d => (d, callWideRow rows d))

/-- Embeds `pd.merge(L, R, on="tradeDate", how="inner")`: every pair of rows
with equal keys contributes one combined row. -/
def mergeTables (L R : Panel) : Panel :=
  L.flatMap (fun l => (R.filter (fun r => r.1 = l.1)).map
    (fun r => (l.1, l.2 ++ r.2)))

/-- Embeds `create_delta_dte_buckets(QQQ, daily)`: build both wide pivots, run
the ratio loop (`none` = `KeyError` when a moneyness column is missing),
then `intermediate = merge(daily_put_agg, daily_call_agg, inner)` and
`daily = merge(daily, intermediate, inner)`. -/
def create_delta_dte_buckets (rows : List OptionRow) (daily : Panel) :
    Option Panel :=
  if ratioLoopOk rows then
    some (mergeTables daily (mergeTables (putWideTable rows) (callWideTable rows)))
  else
    none

/-! ## Daily spot & calendar builder (`time_features.py` /
`features.py`, `add_nextDayReturn`)

`prepare_daily_dataframe` sorts by trade date and keeps the first spot
per date, producing the ordered daily spot sequence; `add_nextDayReturn`
then computes `ret_1d = spot.pct_change()` and
`nextDayRet = ret_1d.shift(-1)`.  The two copies of `add_nextDayReturn`
(class `time_features` in `features.py` and class `TimeFeatures` in
`time_features.py`) are textually identical; one embedding covers both.
The ordered daily spot sequence is modelled as `List ℚ`. -/

/-- Embeds `Series.pct_change()`: entry `i` is `spot[i]/spot[i-1] - 1`
(`NaN` at index 0). -/
def pct_change (spots : List ℚ) : List (Option ℚ) :=
  (List.range spots.length).map
    (fun i => if i = 0 then none else some (spots.getD i 0 / spots.getD (i - 1) 0 - 1))

/-- Embeds `Series.shift(-1)`: drop the first entry and pad with `NaN` at the
end (length preserved; the shift of an empty series is empty). -/
def shiftUp (xs : List (Option ℚ)) : List (Option ℚ) :=
  match xs with
  | [] => []
  | _ :: t => t ++ [none]

/-- Embeds `add_nextDayReturn`: returns the pair of added columns
(`ret_1d`, `nextDayRet`). -/
def add_nextDayReturn (spots : List ℚ) : List (Option ℚ) × List (Option ℚ) :=
  (pct_change spots, shiftUp (pct_change spots))

/-! ## IC analysis engine (`ic_analysis.py`)

A row of the panel handed to the engine after the column projection
`daily[['tradeDate','nextDayRet'] + feature_columns]`: the trade date
(never `NaN`), the forward return, and the feature values in column
order. -/

structure ICRow where
  tradeDate : ℤ
  nextDayRet : Option ℚ
  feats : List (Option ℚ)
  deriving DecidableEq, Repr

/-- A row survives `daily.dropna()` iff *every* retained column is
non-`NaN` (the trade date never is). -/
def rowComplete (r : ICRow) : Bool :=
  r.nextDayRet.isSome && r.feats.all (fun o => o.isSome)

/-- The global pre-trim of `calculate_ic_and_plot` (line 70):
`daily.dropna(inplace=True)` over the retained columns. -/
def trimPanel (panel : List ICRow) : List ICRow :=
  panel.filter rowComplete

/-- Feature value of row `r` in column `i` (the projection a per-feature
correlation actually consumes, together with `nextDayRet`). -/
def featAt (r : ICRow) (i : ℕ) : Option ℚ :=
  r.feats.getD i none

/-- Embeds `daily[[col, "nextDayRet"]].dropna()` for feature column `i`: the
per-feature *local* drop of `calculate_ics` (line 23).  The shared panel
is not modified. -/
def featPairs (panel : List ICRow) (i : ℕ) : List (ℚ × ℚ) :=
  panel.filterMap (fun r =>
    match featAt r i, r.nextDayRet with
    | some x, some y => some (x, y)
    | _, _ => none)

/-! ### Spearman correlation, exactly

`scipy.stats.spearmanr(x, y)` ranks both arrays (average ranks on ties)
and computes their Pearson correlation
`cov / sqrt(vx * vy)`; it returns `NaN` when either ranked array is
constant (zero variance) or has fewer than two elements.  The value is
of the form `s·√q` with `s = sign(cov) ∈ {-1,0,1}` and
`q = cov²/(vx·vy) ∈ ℚ`, which the computable representation `SqrtQ`
captures exactly. -/

/-- Value `s * √q` represented by the pair `(s, q)`. -/
structure SqrtQ where
  sign : ℚ
  sq : ℚ
  deriving DecidableEq, Repr

/-- Interpretation of the representation as a real number (used in
theorem statements only). -/
noncomputable def SqrtQ.toReal (v : SqrtQ) : ℝ :=
  (v.sign : ℝ) * Real.sqrt (v.sq : ℚ)

/-- Embeds `scipy.stats.rankdata(xs)` with the default `"average"` tie method:
the rank of `x` is (number of strictly smaller entries) + (number of
equal entries + 1) / 2. -/
def rankdata (xs : List ℚ) : List ℚ :=
  xs.map (fun x =>
    ((xs.countP (fun y => y < x) : ℚ) + ((xs.countP (fun y => y = x) : ℚ) + 1) / 2))

/-- Pearson correlation of two equal-length rational lists, in the
`SqrtQ` representation; `none` models the `NaN` result on zero
variance (which subsumes the empty and singleton cases). -/
def pearsonRep (xs ys : List ℚ) : Option SqrtQ :=
  let n : ℚ := xs.length
  let mx := xs.sum / n
  let my := ys.sum / n
  let cov := ((xs.zip ys).map (fun p => (p.1 - mx) * (p.2 - my))).sum
  let vx := (xs.map (fun x => (x - mx) ^ 2)).sum
  let vy := (ys.map (fun y => (y - my) ^ 2)).sum
  if vx * vy = 0 then none
  else some ⟨if 0 < cov then 1 else if cov < 0 then -1 else 0, cov ^ 2 / (vx * vy)⟩

/-- Embeds `spearmanr` on a list of (feature, forward-return) pairs. -/
def spearmanRep (pairs : List (ℚ × ℚ)) : Option SqrtQ :=
  pearsonRep (rankdata (pairs.map Prod.fst)) (rankdata (pairs.map Prod.snd))

/-- The `ic` of feature column `i` as computed by `calculate_ics`
(line 26): Spearman correlation over the locally available rows. -/
def icOf (panel : List ICRow) (i : ℕ) : Option SqrtQ :=
  spearmanRep (featPairs panel i)

/-- The number of rows actually used for feature `i`'s correlation
(the row count after the local drop). -/
def localCount (panel : List ICRow) (i : ℕ) : ℕ :=
  (featPairs panel i).length

/-- The `tstat` of feature column `i` as computed by `calculate_ics`
(line 27): `ic * np.sqrt((n - 2) / (1 - ic**2))` with
`n = len(daily)` — the length of the *whole* panel, fixed once before
the loop (line 20) — guarded by `np.isfinite(ic) and abs(ic) < 1`
(`abs(s·√q) < 1` iff `q < 1`); `np.nan` otherwise.  In the `SqrtQ`
representation, `s·√q·√X = s·√(q·X)`. -/
def tstatOf (panel : List ICRow) (i : ℕ) : Option SqrtQ :=
  match icOf panel i with
  | none => none
  | some v =>
      if v.sq < 1 then
        some ⟨v.sign, v.sq * ((panel.length : ℚ) - 2) / (1 - v.sq)⟩
      else none

/-! ## Spec-side definitions (for refinement comparisons)

These definitions follow the *specification's wording* (spec §3, §4.3),
to be compared against the code-derived definitions above. -/

/-- Modelled from the spec: the full fixed cross product of wide bucket
columns, "one column per (metric ∈ {notional volume, notional open
interest}) × (tenor bucket) × (moneyness bucket) × (leg)", derived
purely from the configured label lists. -/
def specWideColumns : List String :=
  ["call_notvol", "call_notoi", "put_notvol", "put_notoi"].flatMap
    (fun metric => dte_buckets_labels.flatMap
      (fun t => ["itm", "atm", "otm"].map (fun m => colName metric t m)))

/-! ## Sample data used by witnesses and counterexamples -/

/-- A well-formed quote row: both legs at-the-money, `dte = 10`. -/
def sampleRow : OptionRow :=
  { tradeDate := 0, dte := some 10, spotPrice := some 100,
    callBidPrice := some 1, callAskPrice := some 2,
    putBidPrice := some 1, putAskPrice := some 2,
    callVolume := some 3, putVolume := some 4,
    callOpenInterest := some 5, putOpenInterest := some 6,
    callDelta := some (mkRat 1 2), putDelta := some (mkRat (-1) 2) }

/-- Out-of-the-money variant of `sampleRow`. -/
def sampleRowOtm : OptionRow :=
  { sampleRow with callDelta := some (mkRat 3 10), putDelta := some (mkRat (-3) 10) }

/-- In-the-money variant of `sampleRow`. -/
def sampleRowItm : OptionRow :=
  { sampleRow with callDelta := some (mkRat 7 10), putDelta := some (mkRat (-7) 10) }

/-- A crossed-quote row (`callBid = 5 > callAsk = 3`). -/
def sampleRowCrossed : OptionRow :=
  { sampleRow with callBidPrice := some 5, callAskPrice := some 3 }

/-- Variant of `sampleRow` with a missing `dte`. -/
def sampleRowNoDte : OptionRow :=
  { sampleRow with dte := none }

/-- A one-date daily panel with a single `spot` column. -/
def sampleDaily : Panel := [(0, [("spot", 100)])]

/-- All quantity and price fields of a row are nonnegative (missing
values are unconstrained).  Hypothesis under which the put/call ratio
denominators are positive. -/
def rowNonneg (r : OptionRow) : Prop :=
  optNonneg r.callVolume ∧ optNonneg r.putVolume ∧
  optNonneg r.callOpenInterest ∧ optNonneg r.putOpenInterest ∧
  optNonneg r.callBidPrice ∧ optNonneg r.callAskPrice ∧
  optNonneg r.putBidPrice ∧ optNonneg r.putAskPrice

instance (r : OptionRow) : Decidable (rowNonneg r) := by
  unfold rowNonneg
  infer_instance

/-- Three rows covering all three moneyness buckets on both legs. -/
def sampleRows3 : List OptionRow := [sampleRow, sampleRowOtm, sampleRowItm]

/-- The (feature `i`, forward return) projection of an IC panel row: the
only data feature `i`'s correlation and local drop can depend on. -/
def projAt (i : ℕ) (r : ICRow) : Option ℚ × Option ℚ :=
  (featAt r i, r.nextDayRet)

/-- An IC panel row with a *defined* forward return but a missing
feature value (the shape every `_z_chg1` column has on the first date). -/
def badICRow : ICRow := { tradeDate := 0, nextDayRet := some 0, feats := [none] }

/-- A complete IC panel row. -/
def goodICRow : ICRow := { tradeDate := 1, nextDayRet := some 1, feats := [some 1] }

/-- A four-row IC panel whose single feature column has one missing
value; the three locally usable pairs have Spearman correlation `1/2`. -/
def icPanel4 : List ICRow :=
  [{ tradeDate := 0, nextDayRet := some 5, feats := [none] },
   { tradeDate := 1, nextDayRet := some 1, feats := [some 1] },
   { tradeDate := 2, nextDayRet := some 3, feats := [some 2] },
   { tradeDate := 3, nextDayRet := some 2, feats := [some 3] }]

/-! ## Helper lemmas -/

/-- The boolean crossed-quote filter agrees with the spec's wording of
the removal condition. -/
theorem crossedQuote_iff_specCrossed (r : OptionRow) :
    crossedQuote r = true ↔ specCrossed r := by
  unfold crossedQuote specCrossed optGt
  constructor
  · intro h
    rcases Bool.or_eq_true _ _ ▸ h with h' | h'
    · left
      cases hb : r.callBidPrice with
      | none => rw [hb] at h'; simp at h'
      | some b =>
        cases ha : r.callAskPrice with
        | none => rw [hb, ha] at h'; simp at h'
        | some a =>
          rw [hb, ha] at h'
          exact ⟨b, a, rfl, rfl, of_decide_eq_true h'⟩
    · right
      cases hb : r.putBidPrice with
      | none => rw [hb] at h'; simp at h'
      | some b =>
        cases ha : r.putAskPrice with
        | none => rw [hb, ha] at h'; simp at h'
        | some a =>
          rw [hb, ha] at h'
          exact ⟨b, a, rfl, rfl, of_decide_eq_true h'⟩
  · rintro (⟨b, a, hb, ha, hba⟩ | ⟨b, a, hb, ha, hba⟩)
    · rw [hb, ha]
      simp [hba]
    · rw [hb, ha]
      simp [hba]

/-! ## Claim theorems -/

/-- C4: every row surviving the Row Validator has `callBidPrice ≤
callAskPrice` and `putBidPrice ≤ putAskPrice` (whenever the compared
prices are present; missing prices are reported but retained by the
validator, and a comparison with a missing value is vacuous). -/
theorem validated_rows_bid_le_ask (rows : List OptionRow) (r : OptionRow)
    (hr : r ∈ check_data_completeness rows) :
    (∀ b a, r.callBidPrice = some b → r.callAskPrice = some a → b ≤ a) ∧
    (∀ b a, r.putBidPrice = some b → r.putAskPrice = some a → b ≤ a) := by
  rw [check_data_completeness, List.mem_filter] at hr
  have hfalse : crossedQuote r = false := by
    have := hr.2
    simpa using this
  have hnot : ¬ specCrossed r := by
    rw [← crossedQuote_iff_specCrossed, hfalse]
    simp
  constructor
  · intro b a hb ha
    by_contra hlt
    exact hnot (Or.inl ⟨b, a, hb, ha, lt_of_not_le hlt⟩)
  · intro b a hb ha
    by_contra hlt
    exact hnot (Or.inr ⟨b, a, hb, ha, lt_of_not_le hlt⟩)

/-- Witness for C4 at a concrete input. -/
theorem validated_rows_bid_le_ask_witness :
    (∀ b a, sampleRow.callBidPrice = some b → sampleRow.callAskPrice = some a → b ≤ a) ∧
    (∀ b a, sampleRow.putBidPrice = some b → sampleRow.putAskPrice = some a → b ≤ a) :=
  validated_rows_bid_le_ask [sampleRow] sampleRow
    (List.mem_filter.mpr ⟨by simp, by decide⟩)

/-- C7: the Row Validator removes exactly the rows with `bid > ask` on
the call leg or the put leg, retains every other row (as a sublist,
hence with field values unaltered), and in particular removes any row
with `callBidPrice = 5` and `callAskPrice = 3` regardless of every
other field. -/
theorem validator_removes_exactly_crossed (rows : List OptionRow) (r : OptionRow) :
    (r ∈ check_data_completeness rows ↔ r ∈ rows ∧ ¬ specCrossed r) ∧
    (check_data_completeness rows).Sublist rows ∧
    (r.callBidPrice = some 5 → r.callAskPrice = some 3 →
      r ∉ check_data_completeness rows) := by
  refine ⟨?_, List.filter_sublist rows, ?_⟩
  · rw [check_data_completeness, List.mem_filter]
    constructor
    · rintro ⟨hmem, hkeep⟩
      refine ⟨hmem, ?_⟩
      rw [← crossedQuote_iff_specCrossed]
      simpa using hkeep
    · rintro ⟨hmem, hnot⟩
      refine ⟨hmem, ?_⟩
      rw [← crossedQuote_iff_specCrossed] at hnot
      simpa using hnot
  · intro hb ha hmem
    rw [check_data_completeness, List.mem_filter] at hmem
    have h2 : crossedQuote r = true := by
      rw [crossedQuote_iff_specCrossed]
      exact Or.inl ⟨5, 3, hb, ha, by norm_num⟩
    have h3 := hmem.2
    rw [h2] at h3
    simp at h3

/-- Witness for C7 at a concrete input: the crossed row is removed, the
clean row survives. -/
theorem validator_removes_exactly_crossed_witness :
    sampleRowCrossed ∉ check_data_completeness [sampleRowCrossed, sampleRow] ∧
    sampleRow ∈ check_data_completeness [sampleRowCrossed, sampleRow] := by
  constructor
  · exact (validator_removes_exactly_crossed [sampleRowCrossed, sampleRow]
      sampleRowCrossed).2.2 rfl rfl
  · refine (validator_removes_exactly_crossed [sampleRowCrossed, sampleRow]
      sampleRow).1.mpr ⟨by simp, ?_⟩
    rintro (⟨b, a, hb, ha, hba⟩ | ⟨b, a, hb, ha, hba⟩) <;>
      · simp only [sampleRow] at hb ha
        injection hb with hb; injection ha with ha
        subst hb; subst ha
        norm_num at hba

/-- C2 (code bug): the wide bucket table's column set is *not* the full
configured cross product.  On an input whose only traded row is
at-the-money on both legs (`sampleRow`), the call-leg pivot creates no
`itm`/`otm` columns at all — the moneyness column level of the pivot
holds only the *observed* values of the plain string `call_delta_bucket`
column — although the spec's cross product contains
`call_notvol_7d_itm`; the hand-enumerated ratio loop then reads the
missing columns and `create_delta_dte_buckets` fails with a `KeyError`
(modelled as `none`). -/
theorem wide_columns_depend_on_observed_moneyness :
    observedCallMon [sampleRow] = ["atm"] ∧
    "call_notvol_7d_itm" ∉ (callWideBase [sampleRow] 0).map Prod.fst ∧
    "call_notvol_7d_itm" ∈ specWideColumns ∧
    create_delta_dte_buckets [sampleRow] sampleDaily = none := by
  refine ⟨by decide, by decide, by decide, ?_⟩
  rw [create_delta_dte_buckets, if_neg]
  simp [show ratioLoopOk [sampleRow] = false from by decide]

/-- C9: tenor buckets follow the half-open partition
`(-∞,7], (7,30], (30,90], (90,365], (365,∞)` with labels
`7d/1mo/3mo/12mo/far`; the moneyness bucket is `atm` iff the leg's delta
value lies in `[0.4, 0.6]` inclusive, `otm` iff it is `< 0.4`, `itm`
otherwise — the call leg compares the *signed* call delta, the put leg
the *absolute* put delta (spec §3's parenthetical).  A row with
`callDelta = 0.5` and `dte = 10` contributes, on the call leg, only to
the `(1mo, atm)` cells (and there it adds exactly its own notional), and
on the put leg only to `1mo` tenor cells. -/
theorem bucket_assignment_matches_spec (d x y : ℚ) (rows : List OptionRow)
    (r rput : OptionRow) (dd : ℤ) (t m : String)
    (hcd : r.callDelta = some (mkRat 1 2)) (hdte : r.dte = some 10)
    (hpy : rput.putDelta = some y) :
    (dte_bucket (some d) = some "7d" ↔ d ≤ 7) ∧
    (dte_bucket (some d) = some "1mo" ↔ 7 < d ∧ d ≤ 30) ∧
    (dte_bucket (some d) = some "3mo" ↔ 30 < d ∧ d ≤ 90) ∧
    (dte_bucket (some d) = some "12mo" ↔ 90 < d ∧ d ≤ 365) ∧
    (dte_bucket (some d) = some "far" ↔ 365 < d) ∧
    (deltaBucketOfVal (some x) = "atm" ↔ (2 : ℚ)/5 ≤ x ∧ x ≤ 3/5) ∧
    (deltaBucketOfVal (some x) = "otm" ↔ x < (2 : ℚ)/5) ∧
    (deltaBucketOfVal (some x) = "itm" ↔ (3 : ℚ)/5 < x) ∧
    (call_delta_bucket rput = deltaBucketOfVal rput.callDelta) ∧
    (put_delta_bucket rput = deltaBucketOfVal (some |y|)) ∧
    (∀ f, (t, m) ≠ ("1mo", "atm") →
      callCell (r :: rows) dd t m f = callCell rows dd t m f) ∧
    (∀ f, t ≠ "1mo" → putCell (r :: rows) dd t m f = putCell rows dd t m f) ∧
    (∀ f, callCell (r :: rows) r.tradeDate "1mo" "atm" f =
      (f r).getD 0 + callCell rows r.tradeDate "1mo" "atm" f) := by
  have e25 : (mkRat 2 5 : ℚ) = 2/5 := by
    rw [Rat.mkRat_eq_divInt, Rat.divInt_eq_div]; norm_num
  have e35 : (mkRat 3 5 : ℚ) = 3/5 := by
    rw [Rat.mkRat_eq_divInt, Rat.divInt_eq_div]; norm_num
  have hb1 : dte_bucket r.dte = some "1mo" := by
    rw [hdte, dte_bucket]
    norm_num
  have hb2 : call_delta_bucket r = "atm" := by
    rw [call_delta_bucket, hcd]
    decide
  refine ⟨?_, ?_, ?_, ?_, ?_, ?_, ?_, ?_, rfl, ?_, ?_, ?_, ?_⟩
  · rw [dte_bucket, Option.some_inj]
    split_ifs with h1 h2 h3 h4 <;> simp_all <;>
      try first
        | linarith
        | (intro h5; linarith)
  · rw [dte_bucket, Option.some_inj]
    split_ifs with h1 h2 h3 h4 <;> simp_all <;>
      try first
        | linarith
        | (intro h5; linarith)
  · rw [dte_bucket, Option.some_inj]
    split_ifs with h1 h2 h3 h4 <;> simp_all <;>
      try first
        | linarith
        | (intro h5; linarith)
  · rw [dte_bucket, Option.some_inj]
    split_ifs with h1 h2 h3 h4 <;> simp_all <;>
      try first
        | linarith
        | (intro h5; linarith)
  · rw [dte_bucket, Option.some_inj]
    split_ifs with h1 h2 h3 h4 <;> simp_all <;>
      try first
        | linarith
        | (intro h5; linarith)
  · rw [deltaBucketOfVal, e25, e35]
    split_ifs with h1 h2 <;> simp_all <;> linarith
  · rw [deltaBucketOfVal, e25, e35]
    split_ifs with h1 h2 <;> simp_all <;> try linarith
  · rw [deltaBucketOfVal, e25, e35]
    split_ifs with h1 h2 <;> simp_all <;> try linarith
  · rw [put_delta_bucket, hpy, Option.map_some']
  · intro f hne
    have hfalse : ¬ (r.tradeDate = dd ∧ dte_bucket r.dte = some t ∧
        call_delta_bucket r = m) := by
      rintro ⟨-, h2, h3⟩
      rw [hb1, Option.some_inj] at h2
      rw [hb2] at h3
      exact hne (by rw [← h2, ← h3])
    rw [callCell, callCell, List.filter_cons_of_neg]
    simp [hfalse]
  · intro f hne
    have hfalse : ¬ (r.tradeDate = dd ∧ dte_bucket r.dte = some t ∧
        put_delta_bucket r = m) := by
      rintro ⟨-, h2, -⟩
      rw [hb1, Option.some_inj] at h2
      exact hne h2.symm
    rw [putCell, putCell, List.filter_cons_of_neg]
    simp [hfalse]
  · intro f
    have htrue : r.tradeDate = r.tradeDate ∧ dte_bucket r.dte = some "1mo" ∧
        call_delta_bucket r = "atm" := ⟨rfl, hb1, hb2⟩
    rw [callCell, callCell, List.filter_cons_of_pos]
    · rw [List.map_cons, List.sum_cons]
    · simp [htrue]

/-- Witness for C9: `sampleRow` (`callDelta = 0.5`, `dte = 10`) adds
exactly its own call notional volume to the `(1mo, atm)` cell. -/
theorem bucket_assignment_matches_spec_witness :
    callCell [sampleRow, sampleRowOtm] sampleRow.tradeDate "1mo" "atm" call_notvol =
      (call_notvol sampleRow).getD 0 +
        callCell [sampleRowOtm] sampleRow.tradeDate "1mo" "atm" call_notvol :=
  (bucket_assignment_matches_spec 10 0 (mkRat (-1) 2) [sampleRowOtm] sampleRow
    sampleRow 0 "1mo" "atm" rfl rfl rfl).2.2.2.2.2.2.2.2.2.2.2.2 call_notvol

/-- Removing a list element on which a filter predicate is false leaves
the filter unchanged. -/
theorem filter_erase_middle {α : Type} (p : α → Bool) (pre post : List α)
    (r : α) (h : p r = false) :
    (pre ++ r :: post).filter p = (pre ++ post).filter p := by
  simp [List.filter_append, List.filter_cons, h]

/-- C10: a row with a missing `dte` receives a missing tenor-bucket key,
is dropped by every groupby, and therefore contributes to no
notional-volume, notional-open-interest or ratio column: the aggregated
output equals the one computed with the row removed.  Such a row also
passes the Row Validator whenever its quotes are not crossed. -/
theorem missing_dte_contributes_nothing (daily : Panel)
    (pre post : List OptionRow) (r : OptionRow) (hdte : r.dte = none) :
    create_delta_dte_buckets (pre ++ r :: post) daily =
      create_delta_dte_buckets (pre ++ post) daily ∧
    (crossedQuote r = false → r ∈ check_data_completeness (pre ++ r :: post)) := by
  have hno : dte_bucket r.dte = none := by rw [hdte]; rfl
  have hcellC : ∀ d t m f, callCell (pre ++ r :: post) d t m f =
      callCell (pre ++ post) d t m f := by
    intro d t m f
    rw [callCell, callCell, filter_erase_middle _ _ _ _ (by simp [hno])]
  have hcellP : ∀ d t m f, putCell (pre ++ r :: post) d t m f =
      putCell (pre ++ post) d t m f := by
    intro d t m f
    rw [putCell, putCell, filter_erase_middle _ _ _ _ (by simp [hno])]
  have hdates : bucketDates (pre ++ r :: post) = bucketDates (pre ++ post) := by
    rw [bucketDates, bucketDates, filter_erase_middle _ _ _ _ (by simp [hno])]
  have hobsC : observedCallMon (pre ++ r :: post) = observedCallMon (pre ++ post) := by
    rw [observedCallMon, observedCallMon,
      filter_erase_middle _ _ _ _ (by simp [hno])]
  have hobsP : observedPutMon (pre ++ r :: post) = observedPutMon (pre ++ post) := by
    rw [observedPutMon, observedPutMon,
      filter_erase_middle _ _ _ _ (by simp [hno])]
  have hputrow : ∀ d, putWideRow (pre ++ r :: post) d = putWideRow (pre ++ post) d := by
    intro d
    rw [putWideRow, putWideRow, hobsP]
    simp only [hcellP]
  have hcallbase : ∀ d, callWideBase (pre ++ r :: post) d =
      callWideBase (pre ++ post) d := by
    intro d
    rw [callWideBase, callWideBase, hobsC]
    simp only [hcellC]
  have hratV : ∀ d t m, pcRatioVol (pre ++ r :: post) d t m =
      pcRatioVol (pre ++ post) d t m := by
    intro d t m
    rw [pcRatioVol, pcRatioVol, hcellP, hcellC]
  have hratO : ∀ d t m, pcRatioOi (pre ++ r :: post) d t m =
      pcRatioOi (pre ++ post) d t m := by
    intro d t m
    rw [pcRatioOi, pcRatioOi, hcellP, hcellC]
  have hcallrow : ∀ d, callWideRow (pre ++ r :: post) d =
      callWideRow (pre ++ post) d := by
    intro d
    rw [callWideRow, callWideRow, hcallbase]
    simp only [hratV, hratO]
  have hputtab : putWideTable (pre ++ r :: post) = putWideTable (pre ++ post) := by
    rw [putWideTable, putWideTable, hdates]
    simp only [hputrow]
  have hcalltab : callWideTable (pre ++ r :: post) = callWideTable (pre ++ post) := by
    rw [callWideTable, callWideTable, hdates]
    simp only [hcallrow]
  have hok : ratioLoopOk (pre ++ r :: post) = ratioLoopOk (pre ++ post) := by
    rw [ratioLoopOk, ratioLoopOk, hobsP, hobsC]
  constructor
  · rw [create_delta_dte_buckets, create_delta_dte_buckets, hok, hputtab, hcalltab]
  · intro hc
    rw [check_data_completeness, List.mem_filter]
    exact ⟨by simp, by simp [hc]⟩

/-- Witness for C10 at a concrete input. -/
theorem missing_dte_contributes_nothing_witness :
    create_delta_dte_buckets [sampleRow, sampleRowNoDte] sampleDaily =
      create_delta_dte_buckets [sampleRow] sampleDaily ∧
    sampleRowNoDte ∈ check_data_completeness [sampleRow, sampleRowNoDte] :=
  ⟨(missing_dte_contributes_nothing sampleDaily [sampleRow] [] sampleRowNoDte rfl).1,
   (missing_dte_contributes_nothing sampleDaily [sampleRow] [] sampleRowNoDte rfl).2
     (by decide)⟩

/-- A per-row notional value (volume/OI × mid) is nonnegative when the
row's quantity and price fields are, counting a missing value as the
`0` that a skip-`NaN` sum assigns it. -/
theorem notional_getD_nonneg (v b a : Option ℚ) (hv : optNonneg v)
    (hb : optNonneg b) (ha : optNonneg a) :
    0 ≤ (match v, (match b, a with
          | some x, some y => some ((x + y) / 2)
          | _, _ => none) with
        | some q, some m => some (q * m)
        | _, _ => (none : Option ℚ)).getD 0 := by
  cases v with
  | none => simp
  | some q =>
    cases b with
    | none => simp
    | some x =>
      cases a with
      | none => simp
      | some y =>
        simp only [Option.getD_some]
        have hq : 0 ≤ q := hv
        have hx : 0 ≤ x := hb
        have hy : 0 ≤ y := ha
        have : 0 ≤ (x + y) / 2 := by positivity
        exact mul_nonneg hq this

/-- A call-leg wide cell is a sum of nonnegative notionals. -/
theorem callCell_nonneg (rows : List OptionRow) (d : ℤ) (t m : String)
    (f : OptionRow → Option ℚ)
    (hf : ∀ r, rowNonneg r → 0 ≤ (f r).getD 0)
    (h : ∀ r ∈ rows, rowNonneg r) :
    0 ≤ callCell rows d t m f := by
  rw [callCell]
  apply List.sum_nonneg
  intro x hx
  rw [List.mem_map] at hx
  obtain ⟨r, hr, rfl⟩ := hx
  exact hf r (h r (List.mem_filter.mp hr).1)

theorem call_notvol_getD_nonneg (r : OptionRow) (h : rowNonneg r) :
    0 ≤ (call_notvol r).getD 0 := by
  obtain ⟨hv, -, -, -, hb, ha, -, -⟩ := h
  rw [call_notvol, mid_call]
  exact notional_getD_nonneg _ _ _ hv hb ha

theorem call_notoi_getD_nonneg (r : OptionRow) (h : rowNonneg r) :
    0 ≤ (call_notoi r).getD 0 := by
  obtain ⟨-, -, hv, -, hb, ha, -, -⟩ := h
  rw [call_notoi, mid_call]
  exact notional_getD_nonneg _ _ _ hv hb ha

/-- C5: for every `(tenor, moneyness)` cell and every trade date, the
put/call ratio is exactly `put / (call + 1e-8)` and is well defined —
the denominator is strictly positive, hence nonzero (no `inf`/`NaN`),
including when the call-side notional is `0` — provided every input
row's quantity and price fields are nonnegative.  Holds separately for
the notional-volume ratio and the notional-open-interest ratio. -/
theorem pc_ratio_well_defined (rows : List OptionRow) (d : ℤ) (t m : String)
    (h : ∀ r ∈ rows, rowNonneg r) :
    0 < callCell rows d t m call_notvol + machine_error ∧
    0 < callCell rows d t m call_notoi + machine_error ∧
    pcRatioVol rows d t m =
      putCell rows d t m put_notvol / (callCell rows d t m call_notvol + machine_error) ∧
    pcRatioOi rows d t m =
      putCell rows d t m put_notoi / (callCell rows d t m call_notoi + machine_error) := by
  have hme : (0 : ℚ) < machine_error := by decide
  refine ⟨?_, ?_, rfl, rfl⟩
  · have := callCell_nonneg rows d t m call_notvol call_notvol_getD_nonneg h
    linarith
  · have := callCell_nonneg rows d t m call_notoi call_notoi_getD_nonneg h
    linarith

/-- Witness for C5 at a concrete input with an empty call cell
(`callCell = 0`). -/
theorem pc_ratio_well_defined_witness :
    0 < callCell [sampleRow] 0 "7d" "itm" call_notvol + machine_error ∧
    0 < callCell [sampleRow] 0 "7d" "itm" call_notoi + machine_error ∧
    pcRatioVol [sampleRow] 0 "7d" "itm" =
      putCell [sampleRow] 0 "7d" "itm" put_notvol /
        (callCell [sampleRow] 0 "7d" "itm" call_notvol + machine_error) ∧
    pcRatioOi [sampleRow] 0 "7d" "itm" =
      putCell [sampleRow] 0 "7d" "itm" put_notoi /
        (callCell [sampleRow] 0 "7d" "itm" call_notoi + machine_error) :=
  pc_ratio_well_defined [sampleRow] 0 "7d" "itm"
    (by
      intro r hr
      rw [List.mem_singleton] at hr
      subst hr
      decide)

/-- Date membership in an inner merge: a key appears in
`pd.merge(L, R, on="tradeDate", how="inner")` iff it appears in both
inputs. -/
theorem mergeTables_mem_dates (L R : Panel) (d : ℤ) :
    d ∈ (mergeTables L R).map Prod.fst ↔
      d ∈ L.map Prod.fst ∧ d ∈ R.map Prod.fst := by
  constructor
  · intro h
    rw [List.mem_map] at h
    obtain ⟨x, hx, rfl⟩ := h
    rw [mergeTables, List.mem_flatMap] at hx
    obtain ⟨l, hl, hx⟩ := hx
    rw [List.mem_map] at hx
    obtain ⟨rr, hrr, rfl⟩ := hx
    rw [List.mem_filter] at hrr
    have hkey : rr.1 = l.1 := by simpa using hrr.2
    exact ⟨List.mem_map.mpr ⟨l, hl, rfl⟩,
      List.mem_map.mpr ⟨rr, hrr.1, hkey⟩⟩
  · rintro ⟨h1, h2⟩
    rw [List.mem_map] at h1 h2
    obtain ⟨l, hl, rfl⟩ := h1
    obtain ⟨rr, hrr, hr1⟩ := h2
    refine List.mem_map.mpr ⟨(l.1, l.2 ++ rr.2), ?_, rfl⟩
    rw [mergeTables, List.mem_flatMap]
    exact ⟨l, hl, List.mem_map.mpr
      ⟨rr, List.mem_filter.mpr ⟨hrr, by simp [hr1]⟩, rfl⟩⟩

/-- C6: the trade dates of the joined daily panel are exactly the
intersection of the time-feature panel's dates and the wide bucket
table's dates — the inner join introduces no date absent from either
input and drops no date present in both. -/
theorem inner_join_dates_exact (rows : List OptionRow) (daily : Panel)
    (out : Panel) (h : create_delta_dte_buckets rows daily = some out) (d : ℤ) :
    d ∈ out.map Prod.fst ↔
      d ∈ daily.map Prod.fst ∧
        d ∈ (mergeTables (putWideTable rows) (callWideTable rows)).map Prod.fst := by
  rw [create_delta_dte_buckets] at h
  by_cases hok : ratioLoopOk rows = true
  · rw [if_pos hok, Option.some_inj] at h
    subst h
    exact mergeTables_mem_dates _ _ d
  · rw [if_neg hok] at h
    exact absurd h (by simp)

/-- Witness for C6 at a concrete input on which the aggregation
succeeds. -/
theorem inner_join_dates_exact_witness :
    (0 : ℤ) ∈ (mergeTables sampleDaily
        (mergeTables (putWideTable sampleRows3) (callWideTable sampleRows3))).map
        Prod.fst ↔
      (0 : ℤ) ∈ sampleDaily.map Prod.fst ∧
        (0 : ℤ) ∈ (mergeTables (putWideTable sampleRows3)
          (callWideTable sampleRows3)).map Prod.fst :=
  inner_join_dates_exact sampleRows3 sampleDaily _
    (by simp [create_delta_dte_buckets,
      show ratioLoopOk sampleRows3 = true from by decide]) 0

/-- Entry `i` of `pct_change` (for `i` within range). -/
theorem pct_change_getD (spots : List ℚ) (i : ℕ) (h : i < spots.length) :
    (pct_change spots).getD i none =
      if i = 0 then none
      else some (spots.getD i 0 / spots.getD (i - 1) 0 - 1) := by
  have hlen : i < (pct_change spots).length := by simpa [pct_change] using h
  rw [List.getD_eq_getElem _ _ hlen]
  simp [pct_change]

/-- Shifting by `-1` aligns entry `i` with entry `i + 1`. -/
theorem shiftUp_getD (xs : List (Option ℚ)) (i : ℕ) (h : i + 1 < xs.length) :
    (shiftUp xs).getD i none = xs.getD (i + 1) none := by
  cases xs with
  | nil => simp at h
  | cons a t =>
    have hi : i < t.length := Nat.lt_of_succ_lt_succ h
    rw [shiftUp, List.getD_append _ _ _ _ hi, List.getD_cons_succ]

/-- Shifting by `-1` leaves `NaN` in the last entry. -/
theorem shiftUp_getD_last (xs : List (Option ℚ)) (h : 0 < xs.length) :
    (shiftUp xs).getD (xs.length - 1) none = none := by
  cases xs with
  | nil => simp at h
  | cons a t =>
    rw [shiftUp]
    simp only [List.length_cons, Nat.add_sub_cancel]
    rw [List.getD_append_right _ _ _ _ (le_refl t.length)]
    simp

/-- C8: in the ordered daily panel, `nextDayRet` at position `t` equals
`ret_1d` at position `t + 1` for every position before the last, and is
undefined at the last position; `ret_1d` is undefined at the first
position and otherwise is the simple percentage change of spot between
consecutive dates. -/
theorem next_day_return_is_shifted_ret (spots : List ℚ) :
    (add_nextDayReturn spots).1.length = spots.length ∧
    (add_nextDayReturn spots).2.length = spots.length ∧
    (∀ i, i + 1 < spots.length →
      (add_nextDayReturn spots).2.getD i none =
        (add_nextDayReturn spots).1.getD (i + 1) none) ∧
    (0 < spots.length →
      (add_nextDayReturn spots).2.getD (spots.length - 1) none = none) ∧
    (0 < spots.length → (add_nextDayReturn spots).1.getD 0 none = none) ∧
    (∀ i, 0 < i → i < spots.length → spots.getD (i - 1) 0 ≠ 0 →
      (add_nextDayReturn spots).1.getD i none =
        some ((spots.getD i 0 - spots.getD (i - 1) 0) / spots.getD (i - 1) 0)) := by
  have hlen1 : (pct_change spots).length = spots.length := by simp [pct_change]
  refine ⟨hlen1, ?_, ?_, ?_, ?_, ?_⟩
  · rw [add_nextDayReturn]
    cases hp : pct_change spots with
    | nil => rw [← hlen1, hp]; rfl
    | cons a t =>
      have : (shiftUp (a :: t)).length = (a :: t).length := by simp [shiftUp]
      rw [shiftUp] at this ⊢
      rw [this, ← hp, hlen1]
  · intro i h
    rw [add_nextDayReturn]
    exact shiftUp_getD _ i (by rw [hlen1]; exact h)
  · intro h
    rw [add_nextDayReturn, ← hlen1]
    exact shiftUp_getD_last _ (by rw [hlen1]; exact h)
  · intro h
    rw [add_nextDayReturn, pct_change_getD spots 0 h]
    simp
  · intro i hi0 hin hnz
    rw [add_nextDayReturn, pct_change_getD spots i hin, if_neg (Nat.pos_iff_ne_zero.mp hi0)]
    rw [div_sub_one hnz]

/-- Witness for C8 at the spec's own example `spots = [100, 102, 101]`:
`nextDayRet[0] = ret_1d[1]`, `nextDayRet[2] = NA`, `ret_1d[0] = NA`,
and `ret_1d[1] = (102 - 100)/100`. -/
theorem next_day_return_is_shifted_ret_witness :
    (add_nextDayReturn [100, 102, 101]).2.getD 0 none =
      (add_nextDayReturn [100, 102, 101]).1.getD 1 none ∧
    (add_nextDayReturn [100, 102, 101]).2.getD 2 none = none ∧
    (add_nextDayReturn [100, 102, 101]).1.getD 0 none = none ∧
    (add_nextDayReturn [100, 102, 101]).1.getD 1 none =
      some ((102 - 100) / 100) := by
  obtain ⟨-, -, h3, h4, h5, h6⟩ := next_day_return_is_shifted_ret [100, 102, 101]
  refine ⟨h3 0 (by norm_num), ?_, h5 (by norm_num), ?_⟩
  · have := h4 (by norm_num)
    simpa using this
  · have := h6 1 (by norm_num) (by norm_num) (by norm_num)
    simpa using this

/-- C3 counterexample: the global pre-trim `daily.dropna()` keys on
*every* retained column, so a row whose forward return is *defined* but
whose feature value is missing is removed globally — the removed set is
not exactly the forward-return-undefined rows. -/
theorem pretrim_drops_defined_forward_return_row :
    badICRow.nextDayRet = some 0 ∧
    trimPanel [badICRow, goodICRow] = [goodICRow] := by
  decide

/-- C3 (amended): the global pre-trim removes exactly the rows with a
missing value in *any* retained column (forward return or any raw
feature); when every feature value is defined — as for the NA-free
bucket features the pipeline feeds it — this is exactly the set of rows
with undefined forward return.  Per-feature missing values are dropped
only locally: a feature's correlation and used-row count depend only on
that feature's own (feature, forward-return) projection of the shared
panel, which is never modified. -/
theorem pretrim_global_and_local_drop (panel : List ICRow) (r : ICRow) (i : ℕ) :
    (r ∈ trimPanel panel ↔
      r ∈ panel ∧ r.nextDayRet.isSome ∧ r.feats.all Option.isSome) ∧
    ((∀ s ∈ panel, s.feats.all Option.isSome) →
      (r ∈ trimPanel panel ↔ r ∈ panel ∧ r.nextDayRet.isSome)) ∧
    (∀ panel₂, panel.map (projAt i) = panel₂.map (projAt i) →
      icOf panel i = icOf panel₂ i ∧ localCount panel i = localCount panel₂ i) := by
  have h1 : r ∈ trimPanel panel ↔
      r ∈ panel ∧ r.nextDayRet.isSome ∧ r.feats.all Option.isSome := by
    rw [trimPanel, List.mem_filter, rowComplete]
    simp [Bool.and_eq_true]
  refine ⟨h1, fun hall => ?_, fun panel₂ hproj => ?_⟩
  · rw [h1]
    constructor
    · rintro ⟨hm, hn, -⟩
      exact ⟨hm, hn⟩
    · rintro ⟨hm, hn⟩
      exact ⟨hm, hn, hall r hm⟩
  · have key : ∀ P : List ICRow,
        featPairs P i = (P.map (projAt i)).filterMap
          (fun p => match p.1, p.2 with
            | some x, some y => some (x, y)
            | _, _ => none) := by
      intro P
      rw [List.filterMap_map]
      rfl
    have hfp : featPairs panel i = featPairs panel₂ i := by
      rw [key panel, key panel₂, hproj]
    exact ⟨by rw [icOf, icOf, hfp], by rw [localCount, localCount, hfp]⟩

/-- Witness for C3 (amended) at a concrete input. -/
theorem pretrim_global_and_local_drop_witness :
    (goodICRow ∈ trimPanel [goodICRow] ↔
      goodICRow ∈ [goodICRow] ∧ goodICRow.nextDayRet.isSome) ∧
    icOf [goodICRow] 0 = icOf [goodICRow] 0 :=
  ⟨(pretrim_global_and_local_drop [goodICRow] goodICRow 0).2.1 (by decide),
   ((pretrim_global_and_local_drop [goodICRow] goodICRow 0).2.2 [goodICRow] rfl).1⟩

/-- Structure of the value `pearsonRep` wraps in `some`: nonneg square,
and sign in `{1, -1, 0}` with zero sign forcing zero square. -/
theorem sqrtq_build_inv (cov vx vy s q : ℚ)
    (hvx0 : 0 ≤ vx) (hvy0 : 0 ≤ vy)
    (h : (if vx * vy = 0 then none else
      some (⟨if 0 < cov then 1 else if cov < 0 then -1 else 0,
        cov ^ 2 / (vx * vy)⟩ : SqrtQ)) = some ⟨s, q⟩) :
    0 ≤ q ∧ (s = 1 ∨ s = -1 ∨ (s = 0 ∧ q = 0)) := by
  by_cases hz : vx * vy = 0
  · rw [if_pos hz] at h
    exact absurd h (by simp)
  · rw [if_neg hz, Option.some_inj, SqrtQ.mk.injEq] at h
    obtain ⟨hs, hq⟩ := h
    have hpos : 0 < vx * vy := lt_of_le_of_ne (mul_nonneg hvx0 hvy0) (Ne.symm hz)
    have hq0 : 0 ≤ q := by
      rw [← hq]
      positivity
    refine ⟨hq0, ?_⟩
    by_cases hc1 : 0 < cov
    · rw [if_pos hc1] at hs
      exact Or.inl hs.symm
    · rw [if_neg hc1] at hs
      by_cases hc2 : cov < 0
      · rw [if_pos hc2] at hs
        exact Or.inr (Or.inl hs.symm)
      · rw [if_neg hc2] at hs
        have hcz : cov = 0 := le_antisymm (not_lt.mp hc1) (not_lt.mp hc2)
        refine Or.inr (Or.inr ⟨hs.symm, ?_⟩)
        rw [← hq, hcz]
        simp

/-- A sum of squares is nonnegative. -/
theorem sum_sq_nonneg (xs : List ℚ) (c : ℚ) :
    0 ≤ (xs.map (fun x => (x - c) ^ 2)).sum := by
  apply List.sum_nonneg
  intro a ha
  rw [List.mem_map] at ha
  obtain ⟨x, -, rfl⟩ := ha
  positivity

/-- Structure of a defined Pearson/Spearman result: the squared part is
nonnegative, and the sign is `1`, `-1`, or `0` with a zero sign forcing
a zero square (zero covariance). -/
theorem pearsonRep_some_inv (xs ys : List ℚ) (s q : ℚ)
    (h : pearsonRep xs ys = some ⟨s, q⟩) :
    0 ≤ q ∧ (s = 1 ∨ s = -1 ∨ (s = 0 ∧ q = 0)) := by
  simp only [pearsonRep] at h
  exact sqrtq_build_inv _ _ _ s q (sum_sq_nonneg xs _) (sum_sq_nonneg ys _) h

/-- C1 (amended): the reported t-statistic is
`ic·√((n−2)/(1−ic²))` where `n` is the length of the *whole* trimmed
panel (`n = len(daily)`, computed once before the feature loop), not
the per-feature count of rows surviving the local NA drop; it is
undefined exactly when `ic` is undefined or `|ic| ≥ 1`. -/
theorem tstat_uses_global_panel_length (panel : List ICRow) (i : ℕ)
    (h2 : 2 ≤ panel.length) :
    (icOf panel i = none → tstatOf panel i = none) ∧
    (∀ s q, icOf panel i = some ⟨s, q⟩ → 1 ≤ q → tstatOf panel i = none) ∧
    (∀ s q, icOf panel i = some ⟨s, q⟩ → q < 1 →
      tstatOf panel i = some ⟨s, q * ((panel.length : ℚ) - 2) / (1 - q)⟩ ∧
      SqrtQ.toReal ⟨s, q * ((panel.length : ℚ) - 2) / (1 - q)⟩ =
        SqrtQ.toReal ⟨s, q⟩ *
          Real.sqrt (((panel.length : ℝ) - 2) /
            (1 - SqrtQ.toReal ⟨s, q⟩ ^ 2))) := by
  refine ⟨fun h => by rw [tstatOf, h], fun s q h hq => ?_, fun s q h hq => ?_⟩
  · rw [tstatOf, h]
    simp [not_lt.mpr hq]
  · obtain ⟨hq0, hs⟩ := pearsonRep_some_inv _ _ s q (by rw [← spearmanRep, ← icOf, h])
    constructor
    · rw [tstatOf, h]
      simp [hq]
    · have hsq : SqrtQ.toReal ⟨s, q⟩ ^ 2 = (q : ℝ) := by
        have hq0' : (0 : ℝ) ≤ (q : ℝ) := by exact_mod_cast hq0
        rcases hs with h1 | h1 | ⟨h1, h1'⟩ <;> subst h1 <;>
          simp only [SqrtQ.toReal] <;> push_cast <;>
          rw [mul_pow, Real.sq_sqrt hq0'] <;> norm_num
        · rw [h1']
          norm_num
      rw [hsq]
      simp only [SqrtQ.toReal]
      have hcast : ((q * ((panel.length : ℚ) - 2) / (1 - q) : ℚ) : ℝ) =
          (q : ℝ) * ((((panel.length : ℝ)) - 2) / (1 - (q : ℝ))) := by
        push_cast
        ring
      have hq0' : (0 : ℝ) ≤ (q : ℝ) := by exact_mod_cast hq0
      rw [hcast, Real.sqrt_mul hq0']
      ring

/-- The IC of `icPanel4`'s single feature: Spearman `1/2` over the
three locally available pairs, represented as `⟨1, 1/4⟩`. -/
theorem icPanel4_ic_eval : icOf icPanel4 0 = some ⟨1, 1/4⟩ := by
  have hfp : featPairs icPanel4 0 = [(1, 1), (2, 3), (3, 2)] := by decide
  rw [icOf, spearmanRep, hfp]
  norm_num [pearsonRep, rankdata, List.countP_cons, List.countP_nil]

/-- C1 counterexample: on `icPanel4` the feature's local row count is
`3` (one row is dropped by the local NA filter), its Spearman IC is
`1/2` (represented `⟨1, 1/4⟩`), and the code reports
`t = (1/2)·√((4−2)/(1−1/4))` (represented `⟨1, 2/3⟩`, using the *panel*
length `4`), which differs from the claim's
`ic·√((n−2)/(1−ic²))` with `n` the local count `3`. -/
theorem tstat_local_count_counterexample :
    localCount icPanel4 0 = 3 ∧
    icOf icPanel4 0 = some ⟨1, 1/4⟩ ∧
    tstatOf icPanel4 0 = some ⟨1, 2/3⟩ ∧
    SqrtQ.toReal ⟨1, 2/3⟩ ≠
      SqrtQ.toReal ⟨1, 1/4⟩ *
        Real.sqrt ((((localCount icPanel4 0 : ℝ)) - 2) /
          (1 - SqrtQ.toReal ⟨1, 1/4⟩ ^ 2)) := by
  have hlc : localCount icPanel4 0 = 3 := by decide
  have htst : tstatOf icPanel4 0 = some ⟨1, 2/3⟩ := by
    rw [tstatOf, icPanel4_ic_eval]
    have hlen : (icPanel4.length : ℚ) = 4 := by decide
    simp only [hlen]
    norm_num
  have e1 : SqrtQ.toReal ⟨1, 1/4⟩ = 1/2 := by
    simp only [SqrtQ.toReal]
    push_cast
    rw [show ((1 : ℝ)/4) = (1/2)^2 by norm_num,
      Real.sqrt_sq (by norm_num : (0 : ℝ) ≤ 1/2)]
    norm_num
  have e2 : SqrtQ.toReal ⟨1, 2/3⟩ = Real.sqrt (2/3) := by
    simp only [SqrtQ.toReal]
    push_cast
    norm_num
  refine ⟨hlc, icPanel4_ic_eval, htst, ?_⟩
  rw [hlc, e1, e2]
  have e3 : ((((3 : ℕ) : ℝ)) - 2) / (1 - ((1 : ℝ)/2) ^ 2) = 4/3 := by
    norm_num
  rw [e3]
  intro heq
  have h1 : Real.sqrt (2/3) ^ 2 = (2/3 : ℝ) := Real.sq_sqrt (by norm_num)
  have h2 : ((1 : ℝ)/2 * Real.sqrt (4/3)) ^ 2 = (1/3 : ℝ) := by
    rw [mul_pow, Real.sq_sqrt (by norm_num : (0:ℝ) ≤ 4/3)]
    norm_num
  rw [heq, h2] at h1
  norm_num at h1

/-- Witness for C1 (amended) at `icPanel4`. -/
theorem tstat_uses_global_panel_length_witness :
    tstatOf icPanel4 0 = some ⟨1, 1/4 * ((icPanel4.length : ℚ) - 2) / (1 - 1/4)⟩ ∧
    SqrtQ.toReal ⟨1, 1/4 * ((icPanel4.length : ℚ) - 2) / (1 - 1/4)⟩ =
      SqrtQ.toReal ⟨1, 1/4⟩ *
        Real.sqrt (((icPanel4.length : ℝ) - 2) /
          (1 - SqrtQ.toReal ⟨1, 1/4⟩ ^ 2)) :=
  (tstat_uses_global_panel_length icPanel4 0 (by decide)).2.2 1 (1/4)
    icPanel4_ic_eval (by norm_num)
